import Mathlib

/-!
# Verification of `apple.js`: credential validation, registration and login

The development embeds

* the two regular-expression literals `emailRegex` and `passwordRegex` as values of a small
  regular-expression syntax, together with a backtracking matcher that follows the
  ECMAScript matching rules for the constructs the two literals use;
* `registerUser` and `loginUser`, each split into the promise executor that runs when the
  function is called and the `setTimeout` callback that runs later;
* `localStorage` as a finite map from keys to values, with the storage engine that accepts
  or refuses a write as a parameter.

Strings are Lean strings (sequences of Unicode scalar values). Every character either literal
accepts is below 128, so a string matches here exactly when its UTF-16 form matches there.
-/

namespace Apple

/-! ## Regular expressions -/

/-- One item of a character class: a single character or an inclusive range. -/
inductive ClassItem where
  | single (c : Char)
  | range (lo hi : Char)
  deriving Repr

/-- Case canonicalisation of a code point for a regular expression with the `i` flag and
without the `u` flag: a code point is mapped to its upper-case form, except that a code point
at or above 128 is never mapped below 128.  Every class member of the two literals is below
128, so only the mapping of `a`..`z` to `A`..`Z` can make two code points meet. -/
def canonicalize (ignoreCase : Bool) (n : Nat) : Nat :=
  if ignoreCase && (97 ≤ n && n ≤ 122) then n - 32 else n

/-- The other-case forms of a code point `n`: the code points `a` with
`canonicalize true a = canonicalize true n`. -/
def caseVariants (n : Nat) : List Nat :=
  if 97 ≤ n ∧ n ≤ 122 then [n, n - 32]
  else if 65 ≤ n ∧ n ≤ 90 then [n, n + 32]
  else [n]

/-- Membership of a code point in a class item, case-sensitively. -/
def ClassItem.has : ClassItem → Nat → Bool
  | .single c, n => n == c.toNat
  | .range lo hi, n => lo.toNat ≤ n && n ≤ hi.toNat

/-- A character matches a class item when some member `a` of the item has the same
canonical form as the character. -/
def ClassItem.test (ignoreCase : Bool) (item : ClassItem) (ch : Char) : Bool :=
  if ignoreCase then (caseVariants ch.toNat).any item.has else item.has ch.toNat

/-- An atom consumes exactly one character. -/
inductive Atom where
  /-- The dot: any character except the line terminators. -/
  | dot
  /-- A bracketed class. -/
  | cls (items : List ClassItem)
  deriving Repr

/-- The line terminators: LF, CR, LS, PS. -/
def isLineTerminator (ch : Char) : Bool :=
  ch.toNat == 10 || ch.toNat == 13 || ch.toNat == 8232 || ch.toNat == 8233

/-- Whether an atom accepts a character. -/
def Atom.test (ignoreCase : Bool) : Atom → Char → Bool
  | .dot, ch => !isLineTerminator ch
  | .cls items, ch => items.any fun item => item.test ignoreCase ch

/-- The regular-expression constructs used by the two literals. -/
inductive Regex where
  /-- The assertion `^`. -/
  | bol
  /-- The assertion `$`. -/
  | eol
  /-- One character. -/
  | atom (a : Atom)
  /-- A quantified atom: `a{lo,hi}`, with `hi = none` for no upper bound. -/
  | rep (a : Atom) (lo : Nat) (hi : Option Nat)
  /-- Concatenation. -/
  | seq (r₁ r₂ : Regex)
  /-- An optional group `(r)?`. -/
  | opt (r : Regex)
  /-- A positive lookahead `(?=r)`. -/
  | look (r : Regex)
  deriving Repr

/-- Whether a quantifier that has matched `n` times may match once more. -/
def belowMax (n : Nat) : Option Nat → Bool
  | none => true
  | some hi => n < hi

/-- Greedy matching of a quantified atom that has already matched `n` characters and stands
at index `i` before the characters `cs`: take one more character when allowed, otherwise (or
on backtracking) hand over to the continuation once `lo` is reached. -/
def repK (p : Char → Bool) (lo : Nat) (hi : Option Nat) :
    Nat → Nat → List Char → (Nat → List Char → Bool) → Bool
  | n, i, [], k => decide (lo ≤ n) && k i []
  | n, i, c :: cs, k =>
    (p c && belowMax n hi && repK p lo hi (n + 1) (i + 1) cs k)
      || (decide (lo ≤ n) && k i (c :: cs))

/-- Backtracking matcher in continuation-passing style: `matchK ic r i cs k` matches `r` at
index `i` of the input, `cs` being the characters from `i` on, and calls `k` with the index
and remaining characters after the match. -/
def matchK (ignoreCase : Bool) : Regex → Nat → List Char → (Nat → List Char → Bool) → Bool
  | .bol, i, cs, k => i == 0 && k i cs
  | .eol, i, cs, k => cs.isEmpty && k i cs
  | .atom _, _, [], _ => false
  | .atom a, i, c :: cs, k => a.test ignoreCase c && k (i + 1) cs
  | .rep a lo hi, i, cs, k => repK (a.test ignoreCase) lo hi 0 i cs k
  | .seq r₁ r₂, i, cs, k => matchK ignoreCase r₁ i cs fun j rest => matchK ignoreCase r₂ j rest k
  | .opt r, i, cs, k => matchK ignoreCase r i cs k || k i cs
  | .look r, i, cs, k => matchK ignoreCase r i cs (fun _ _ => true) && k i cs

/-- A regular-expression literal: a pattern and its `i` flag. -/
structure RegExp where
  pattern : Regex
  ignoreCase : Bool

/-- Whether the pattern matches starting at index `i`, the characters from `i` on being `cs`. -/
def RegExp.matchAt (re : RegExp) (i : Nat) (cs : List Char) : Bool :=
  matchK re.ignoreCase re.pattern i cs fun _ _ => true

/-- Search from every start index `i`, `i + 1`, ... up to the end of the input. -/
def RegExp.searchFrom (re : RegExp) : Nat → List Char → Bool
  | i, [] => re.matchAt i []
  | i, c :: cs => re.matchAt i (c :: cs) || re.searchFrom (i + 1) cs

/-- The method `RegExp.prototype.test` of a literal without the `g` and `y` flags: the
pattern matches somewhere in the string. -/
def RegExp.test (re : RegExp) (s : String) : Bool :=
  re.searchFrom 0 s.data

/-- The class escape `\d`. -/
def digit : ClassItem := .range '0' '9'

/-- Concatenation of a list of patterns. -/
def Regex.cat : List Regex → Regex
  | [] => .rep .dot 0 (some 0)
  | [r] => r
  | r :: rs => .seq r (Regex.cat rs)

/-- The class `[a-z\d\.-_]` of the local part: `a-z`, `\d`, and the range from `.` to `_`
that the three characters `\.-_` denote. -/
def localClass : Atom := .cls [.range 'a' 'z', digit, .range '.' '_']

/-- The class `[a-z\d-]` of the domain; the final `-` is a literal dash. -/
def domainClass : Atom := .cls [.range 'a' 'z', digit, .single '-']

/-- The class `[a-z]`. -/
def lowerClass : Atom := .cls [.range 'a' 'z']

/-- The literal
`/^([a-z\d\.-_]+)@([a-z\d-]+)\.([a-z]{2,8})(\.[a-z]{2,8})?$/i`. -/
def emailRegex : RegExp where
  pattern := Regex.cat [
    .bol,
    .rep localClass 1 none,
    .atom (.cls [.single '@']),
    .rep domainClass 1 none,
    .atom (.cls [.single '.']),
    .rep lowerClass 2 (some 8),
    .opt (.seq (.atom (.cls [.single '.'])) (.rep lowerClass 2 (some 8))),
    .eol]
  ignoreCase := true

/-- The class `[A-Z]`. -/
def upperClass : Atom := .cls [.range 'A' 'Z']

/-- The class `[@#$%^&*!]`. -/
def specialClass : Atom :=
  .cls [.single '@', .single '#', .single '$', .single '%', .single '^', .single '&',
    .single '*', .single '!']

/-- The class `[A-Za-z\d@#$%^&*!]`. -/
def passwordClass : Atom :=
  .cls [.range 'A' 'Z', .range 'a' 'z', digit, .single '@', .single '#', .single '$',
    .single '%', .single '^', .single '&', .single '*', .single '!']

/-- The lookahead `(?=.*a)` for a class `a`. -/
def lookFor (a : Atom) : Regex := .look (.seq (.rep .dot 0 none) (.atom a))

/-- The literal
`/^(?=.*[a-z])(?=.*[A-Z])(?=.*\d)(?=.*[@#$%^&*!])[A-Za-z\d@#$%^&*!]{8,15}$/`. -/
def passwordRegex : RegExp where
  pattern := Regex.cat [
    .bol,
    lookFor lowerClass,
    lookFor upperClass,
    lookFor (.cls [digit]),
    lookFor specialClass,
    .rep passwordClass 8 (some 15),
    .eol]
  ignoreCase := false

/-! ## Values, outcomes and the store -/

/-- The values a promise of this program settles with: a string, or an object literal given
by its fields in source order. -/
inductive JsVal where
  | str (s : String)
  | obj (fields : List (String × String))
  deriving DecidableEq, Repr

/-- The settlement of a promise. -/
inductive Outcome where
  | resolved (v : JsVal)
  | rejected (v : JsVal)
  deriving DecidableEq, Repr

/-- The value of a field of an object. -/
def JsVal.field : JsVal → String → Option String
  | .str _, _ => none
  | .obj fields, name => fields.lookup name

/-- The `code` of a rejection. -/
def Outcome.code : Outcome → Option String
  | .resolved _ => none
  | .rejected v => v.field "code"

/-- The map `localStorage`: `getItem` yields `null` (here `none`) for an absent key. -/
abbrev Store := String → Option String

/-- The store without records. -/
def Store.empty : Store := fun _ => none

/-- The method `localStorage.getItem`. -/
def Store.getItem (st : Store) (key : String) : Option String := st key

/-- The storage engine behind `localStorage`, which the program does not define: whether it
accepts the write of `value` under `key` on the given contents. An engine refuses a write for
which it has no room. -/
abbrev Quota := Store → String → String → Bool

/-- An engine with room for every write. -/
def Quota.unbounded : Quota := fun _ _ _ => true

/-- An engine with no room left, or with a quota of zero: every write is refused. -/
def Quota.exhausted : Quota := fun _ _ _ => false

/-- The method `localStorage.setItem`: the record of `key` is created or replaced; when the
engine refuses the write the call throws (`QuotaExceededError`) and nothing is stored, which
is the result `none`. -/
def Store.setItem (quota : Quota) (st : Store) (key value : String) : Option Store :=
  if quota st key value then some fun k => if k = key then some value else st k else none

/-- Truthiness of a string: every string but the empty one. -/
def truthy (s : String) : Bool := decide (s ≠ "")

/-- Truthiness of the result of `getItem`: `null` is falsy, a string is truthy unless empty. -/
def truthyItem : Option String → Bool
  | none => false
  | some v => truthy v

/-! ## `registerUser` and `loginUser` -/

/-- A callback handed to `setTimeout`, with the variables it closes over. -/
inductive Timer where
  /-- The callback of `registerUser` (lines 61-73). -/
  | registerSave (email password : String)
  /-- The callback of `loginUser` (lines 89-102). -/
  | loginCheck (email password : String)
  deriving DecidableEq, Repr

/-- What a promise executor has done when it returns: settled the promise, or scheduled a
timer callback that will settle it. -/
inductive Started where
  | settled (o : Outcome)
  | scheduled (t : Timer)
  deriving DecidableEq, Repr

def msgAllFields : String := "All fields are required."
def msgInvalidEmail : String := "Invalid email format."
def msgWeakPassword : String :=
  "Password must be 8-15 characters and include uppercase, lowercase, number, and special character (@#$%^&*!)."
def msgMismatch : String := "Passwords do not match."
def msgAlreadyRegistered : String := "Email already registered. Please login."
def msgRegistered : String := "Registration successful! Redirecting to login..."
def msgLoginRequired : String := "Email and password are required."
def msgNotRegistered : String := "Email not registered. Please register first."
def msgIncorrect : String := "Incorrect password."

/-- The executor of the promise of `registerUser` (lines 38-60 and the `setTimeout` call). -/
def registerUserExecutor (st : Store) (email password confirmPassword : String) : Started :=
  if !truthy email || !truthy password || !truthy confirmPassword then
    .settled (.rejected (.str msgAllFields))
  else if !emailRegex.test email then
    .settled (.rejected (.str msgInvalidEmail))
  else if !passwordRegex.test password then
    .settled (.rejected (.str msgWeakPassword))
  else if password ≠ confirmPassword then
    .settled (.rejected (.str msgMismatch))
  else if truthyItem (st.getItem email) then
    .settled (.rejected (.str msgAlreadyRegistered))
  else
    .scheduled (.registerSave email password)

/-- The executor of the promise of `loginUser` (lines 79-89 and the `setTimeout` call); it
does not read the store. -/
def loginUserExecutor (email password : String) : Started :=
  if !truthy email || !truthy password then
    .settled (.rejected (.str msgLoginRequired))
  else if !emailRegex.test email then
    .settled (.rejected (.str msgInvalidEmail))
  else
    .scheduled (.loginCheck email password)

/-- Running a timer callback on the store as it is when the timer fires: the settlement of
the promise, or `none` when the callback throws before settling it, and the store afterwards.
The callback of `registerUser` calls `setItem` first, outside any `try`, and `resolve` after
it: when the write throws, the promise is left pending and the store is as it was. -/
def Timer.fire (quota : Quota) : Timer → Store → Option Outcome × Store
  | .registerSave email password, st =>
    match st.setItem quota email password with
    | none => (none, st)
    | some written => (some (.resolved (.str msgRegistered)), written)
  | .loginCheck email password, st =>
    match st.getItem email with
    | none =>
      (some (.rejected (.obj [("code", "USER_NOT_FOUND"), ("message", msgNotRegistered)])), st)
    | some storedPassword =>
      if !truthy storedPassword then
        (some (.rejected (.obj [("code", "USER_NOT_FOUND"), ("message", msgNotRegistered)])),
          st)
      else if storedPassword = password then
        (some (.resolved (.obj [("email", email),
          ("message", "Login successful for " ++ email ++ ".")])), st)
      else
        (some (.rejected (.obj [("code", "INVALID_PASSWORD"), ("message", msgIncorrect)])), st)

/-- A started call run to completion with nothing in between: a scheduled timer fires on the
store the executor saw. The first component is the settlement of the promise, `none` when it
is never settled. -/
def Started.complete (quota : Quota) (st : Store) : Started → Option Outcome × Store
  | .settled o => (some o, st)
  | .scheduled t => t.fire quota st

/-- The function `registerUser` run to completion on its own. -/
def registerUser (quota : Quota) (st : Store) (email password confirmPassword : String) :
    Option Outcome × Store :=
  (registerUserExecutor st email password confirmPassword).complete quota st

/-- The function `loginUser` run to completion on its own. -/
def loginUser (quota : Quota) (st : Store) (email password : String) :
    Option Outcome × Store :=
  (loginUserExecutor email password).complete quota st

/-! ## Executions with overlapping calls -/

/-- A call of one of the two functions. -/
inductive Call where
  | register (email password confirmPassword : String)
  | login (email password : String)
  deriving DecidableEq, Repr

/-- The executor of a call. -/
def Call.start (st : Store) : Call → Started
  | .register email password confirmPassword =>
    registerUserExecutor st email password confirmPassword
  | .login email password => loginUserExecutor email password

/-- The state of the single thread between two tasks: the store, the timers that are
scheduled and have not fired, in the order they were scheduled, and the settlements so far. -/
structure Sys where
  store : Store
  timers : List Timer
  settled : List Outcome

/-- The state with the given store and nothing scheduled. -/
def Sys.init (st : Store) : Sys := ⟨st, [], []⟩

/-- A task of the thread: a call is made, or the scheduled timer with index `i` fires. -/
inductive Event where
  | call (c : Call)
  | fire (i : Nat)
  deriving DecidableEq, Repr

/-- One task. Firing an index at which no timer is scheduled does nothing; a callback that
throws is gone from the timers and settles nothing. -/
def Sys.step (quota : Quota) (s : Sys) : Event → Sys
  | .call c =>
    match c.start s.store with
    | .settled o => ⟨s.store, s.timers, s.settled ++ [o]⟩
    | .scheduled t => ⟨s.store, s.timers ++ [t], s.settled⟩
  | .fire i =>
    match s.timers.get? i with
    | none => s
    | some t =>
      ⟨(t.fire quota s.store).2, s.timers.eraseIdx i,
        s.settled ++ (t.fire quota s.store).1.toList⟩

/-- A sequence of tasks. -/
def Sys.run (quota : Quota) (s : Sys) (es : List Event) : Sys := es.foldl (Sys.step quota) s

/-- A sequence of calls, each run to completion before the next is made. -/
def runCalls (quota : Quota) (st : Store) (calls : List Call) : Store :=
  calls.foldl (fun st c => ((c.start st).complete quota st).2) st

/-! ## Lemmas on the matcher -/

theorem mem_caseVariants (a n : Nat) :
    a ∈ caseVariants n ↔ canonicalize true a = canonicalize true n := by
  unfold caseVariants canonicalize
  simp only [Bool.true_and, Bool.and_eq_true, decide_eq_true_eq]
  split_ifs <;> simp <;> omega

theorem belowMax_iff (n : Nat) (hi : Option Nat) :
    belowMax n hi = true ↔ ∀ h, hi = some h → n < h := by
  cases hi <;> simp [belowMax]

theorem repK_iff (p : Char → Bool) (lo : Nat) (hi : Option Nat) (cs : List Char) :
    ∀ (n i : Nat) (k : Nat → List Char → Bool),
      repK p lo hi n i cs k = true ↔
        ∃ m, m ≤ cs.length ∧ lo ≤ n + m ∧ (∀ h, hi = some h → m = 0 ∨ n + m ≤ h) ∧
          (∀ c ∈ cs.take m, p c = true) ∧ k (i + m) (cs.drop m) = true := by
  induction cs with
  | nil =>
    intro n i k
    simp [repK]
  | cons c cs ih =>
    intro n i k
    simp only [repK, Bool.or_eq_true, Bool.and_eq_true, decide_eq_true_eq, ih, belowMax_iff]
    constructor
    · rintro (⟨⟨hp, hmax⟩, m, hm, hlo, hhi, hall, hk⟩ | ⟨hlo, hk⟩)
      · refine ⟨m + 1, by simpa using hm, by omega, ?_, ?_, ?_⟩
        · intro h hh
          rcases hhi h hh with h0 | h1
          · have := hmax h hh
            omega
          · omega
        · intro x hx
          rw [List.take_succ_cons, List.mem_cons] at hx
          rcases hx with rfl | hx
          · exact hp
          · exact hall x hx
        · rw [List.drop_succ_cons]
          rw [show i + (m + 1) = i + 1 + m by omega]
          exact hk
      · exact ⟨0, by simp, by simpa using hlo, by simp, by simp, by simpa using hk⟩
    · rintro ⟨m, hm, hlo, hhi, hall, hk⟩
      cases m with
      | zero => exact Or.inr ⟨by simpa using hlo, by simpa using hk⟩
      | succ m =>
        refine Or.inl ⟨⟨hall c (by simp), ?_⟩, m, by simpa using hm, by omega, ?_, ?_, ?_⟩
        · intro h hh
          rcases hhi h hh with h0 | h1 <;> omega
        · intro h hh
          rcases hhi h hh with h0 | h1
          · omega
          · right; omega
        · intro x hx
          exact hall x (by simp [hx])
        · rw [List.drop_succ_cons, show i + (m + 1) = i + 1 + m by omega] at hk
          exact hk

theorem repK_zero_iff (p : Char → Bool) (lo : Nat) (hi : Option Nat) (cs : List Char)
    (i : Nat) (k : Nat → List Char → Bool) :
    repK p lo hi 0 i cs k = true ↔
      ∃ m, m ≤ cs.length ∧ lo ≤ m ∧ (∀ h, hi = some h → m ≤ h) ∧
        (∀ c ∈ cs.take m, p c = true) ∧ k (i + m) (cs.drop m) = true := by
  rw [repK_iff]
  constructor
  · rintro ⟨m, hm, hlo, hhi, hall, hk⟩
    refine ⟨m, hm, by omega, ?_, hall, hk⟩
    intro h hh
    rcases hhi h hh with h0 | h1 <;> omega
  · rintro ⟨m, hm, hlo, hhi, hall, hk⟩
    exact ⟨m, hm, by omega, fun h hh => Or.inr (by have := hhi h hh; omega), hall, hk⟩


/-- The case-insensitive class test is the rule of the language: some member of the item has
the canonical form of the character. -/
theorem ClassItem.test_ignoreCase_iff (item : ClassItem) (ch : Char) :
    item.test true ch = true ↔
      ∃ a, item.has a = true ∧ canonicalize true a = canonicalize true ch.toNat := by
  simp only [ClassItem.test, if_true, List.any_eq_true, mem_caseVariants]
  constructor
  · rintro ⟨a, h1, h2⟩; exact ⟨a, h2, h1⟩
  · rintro ⟨a, h1, h2⟩; exact ⟨a, h2, h1⟩

/-! ## Characters -/

theorem toNat_eq_iff (c d : Char) : c.toNat = d.toNat ↔ c = d := by
  constructor
  · intro h
    have := congrArg Char.ofNat h
    simpa using this
  · rintro rfl; rfl

theorem isLower_iff (c : Char) : c.isLower = true ↔ 97 ≤ c.toNat ∧ c.toNat ≤ 122 := by
  simp only [Char.isLower, Bool.and_eq_true, decide_eq_true_eq, ge_iff_le]
  rw [UInt32.le_def, UInt32.le_def]
  rfl

theorem isUpper_iff (c : Char) : c.isUpper = true ↔ 65 ≤ c.toNat ∧ c.toNat ≤ 90 := by
  simp only [Char.isUpper, Bool.and_eq_true, decide_eq_true_eq, ge_iff_le]
  rw [UInt32.le_def, UInt32.le_def]
  rfl

theorem isDigit_iff (c : Char) : c.isDigit = true ↔ 48 ≤ c.toNat ∧ c.toNat ≤ 57 := by
  simp only [Char.isDigit, Bool.and_eq_true, decide_eq_true_eq, ge_iff_le]
  rw [UInt32.le_def, UInt32.le_def]
  rfl

/-- The characters `@#$%^&*!`. -/
theorem mem_special_iff (c : Char) :
    c ∈ "@#$%^&*!".data ↔
      c.toNat = 64 ∨ c.toNat = 35 ∨ c.toNat = 36 ∨ c.toNat = 37 ∨ c.toNat = 94 ∨
        c.toNat = 38 ∨ c.toNat = 42 ∨ c.toNat = 33 := by
  have e : ∀ d : Char, c = d ↔ c.toNat = d.toNat := fun d => (toNat_eq_iff c d).symm
  simp only [List.mem_cons, List.mem_singleton, List.not_mem_nil, or_false, e]
  rfl

theorem lowerClass_test (c : Char) : lowerClass.test false c = true ↔ c.isLower = true := by
  rw [isLower_iff]
  simp [lowerClass, Atom.test, ClassItem.test, ClassItem.has]

theorem upperClass_test (c : Char) : upperClass.test false c = true ↔ c.isUpper = true := by
  rw [isUpper_iff]
  simp [upperClass, Atom.test, ClassItem.test, ClassItem.has]

theorem digitClass_test (c : Char) :
    (Atom.cls [digit]).test false c = true ↔ c.isDigit = true := by
  rw [isDigit_iff]
  simp [digit, Atom.test, ClassItem.test, ClassItem.has]

theorem specialClass_test (c : Char) :
    specialClass.test false c = true ↔ c ∈ "@#$%^&*!".data := by
  rw [mem_special_iff]
  simp [specialClass, Atom.test, ClassItem.test, ClassItem.has]

theorem passwordClass_test (c : Char) :
    passwordClass.test false c = true ↔
      (c.isLower = true ∨ c.isUpper = true ∨ c.isDigit = true ∨ c ∈ "@#$%^&*!".data) := by
  rw [mem_special_iff, isLower_iff, isUpper_iff, isDigit_iff]
  simp [passwordClass, digit, Atom.test, ClassItem.test, ClassItem.has]
  omega

theorem passwordClass_not_lineTerminator (c : Char) (h : passwordClass.test false c = true) :
    Atom.dot.test false c = true := by
  rw [passwordClass_test, mem_special_iff, isLower_iff, isUpper_iff, isDigit_iff] at h
  simp [Atom.test, isLineTerminator]
  omega

/-! ## Anchored patterns and lookaheads -/

theorem searchFrom_bol (re : RegExp) (r : Regex) (h : re.pattern = .seq .bol r) (cs : List Char) :
    ∀ i, 0 < i → re.searchFrom i cs = false := by
  induction cs with
  | nil =>
    intro i hi
    simp only [RegExp.searchFrom, RegExp.matchAt, h, matchK]
    simp; omega
  | cons c cs ih =>
    intro i hi
    simp only [RegExp.searchFrom, RegExp.matchAt, h, matchK, ih (i + 1) (by omega)]
    simp; omega

theorem test_bol (re : RegExp) (r : Regex) (h : re.pattern = .seq .bol r) (s : String) :
    re.test s = matchK re.ignoreCase r 0 s.data fun _ _ => true := by
  unfold RegExp.test
  cases hs : s.data with
  | nil => simp [RegExp.searchFrom, RegExp.matchAt, h, matchK]
  | cons c cs =>
    simp [RegExp.searchFrom, RegExp.matchAt, h, matchK, searchFrom_bol re r h cs 1 (by omega)]

theorem lookFor_iff (ic : Bool) (a : Atom) (i : Nat) (cs : List Char)
    (k : Nat → List Char → Bool) :
    matchK ic (lookFor a) i cs k = true ↔
      (∃ m c rest, (∀ x ∈ cs.take m, Atom.dot.test ic x = true) ∧ cs.drop m = c :: rest ∧
        a.test ic c = true) ∧ k i cs = true := by
  simp only [lookFor, matchK, Bool.and_eq_true, repK_zero_iff]
  refine and_congr ?_ Iff.rfl
  constructor
  · rintro ⟨m, -, -, -, hall, hk⟩
    cases hd : cs.drop m with
    | nil => rw [hd] at hk; simp [matchK] at hk
    | cons c rest =>
      rw [hd] at hk
      simp only [matchK, Bool.and_true] at hk
      exact ⟨m, c, rest, hall, hd, hk⟩
  · rintro ⟨m, c, rest, hall, hd, hc⟩
    refine ⟨m, ?_, Nat.zero_le _, by simp, hall, ?_⟩
    · by_contra hlt
      rw [List.drop_eq_nil_of_le (by omega)] at hd
      cases hd
    · rw [hd]
      simpa [matchK] using hc

theorem lookFor_exists (ic : Bool) (a : Atom) (i : Nat) (cs : List Char)
    (k : Nat → List Char → Bool) (h : matchK ic (lookFor a) i cs k = true) :
    ∃ c ∈ cs, a.test ic c = true := by
  obtain ⟨⟨m, c, rest, -, hd, hc⟩, -⟩ := (lookFor_iff ic a i cs k).1 h
  exact ⟨c, List.mem_of_mem_drop (by rw [hd]; simp), hc⟩

theorem lookFor_of_exists (ic : Bool) (a : Atom) (i : Nat) (cs : List Char)
    (k : Nat → List Char → Bool) (hdot : ∀ x ∈ cs, Atom.dot.test ic x = true)
    (hex : ∃ c ∈ cs, a.test ic c = true) (hk : k i cs = true) :
    matchK ic (lookFor a) i cs k = true := by
  obtain ⟨c, hc, hac⟩ := hex
  obtain ⟨pre, post, rfl⟩ := List.append_of_mem hc
  refine (lookFor_iff ic a i _ k).2 ⟨⟨pre.length, c, post, ?_, by simp, hac⟩, hk⟩
  intro x hx
  exact hdot x (List.mem_of_mem_take hx)

/-! ## The password check -/

theorem passwordBody_iff (cs : List Char) :
    repK (passwordClass.test false) 8 (some 15) 0 0 cs
        (fun j rest => matchK false .eol j rest fun _ _ => true) = true ↔
      8 ≤ cs.length ∧ cs.length ≤ 15 ∧ ∀ c ∈ cs, passwordClass.test false c = true := by
  rw [repK_zero_iff]
  constructor
  · rintro ⟨m, hm, hlo, hhi, hall, hk⟩
    simp only [matchK, Bool.and_true, List.isEmpty_iff, List.drop_eq_nil_iff] at hk
    have hml : m = cs.length := by omega
    subst hml
    rw [List.take_length] at hall
    exact ⟨hlo, hhi 15 rfl, hall⟩
  · rintro ⟨hlo, hhi, hall⟩
    refine ⟨cs.length, le_refl _, hlo, ?_, ?_, ?_⟩
    · intro h hh
      cases hh
      exact hhi
    · rw [List.take_length]
      exact hall
    · simp [matchK]

theorem passwordRegex_matchK (cs : List Char) :
    matchK false (Regex.cat [lookFor lowerClass, lookFor upperClass, lookFor (.cls [digit]),
        lookFor specialClass, .rep passwordClass 8 (some 15), .eol]) 0 cs (fun _ _ => true)
        = true ↔
      8 ≤ cs.length ∧ cs.length ≤ 15 ∧ (∀ c ∈ cs, passwordClass.test false c = true) ∧
        (∃ c ∈ cs, lowerClass.test false c = true) ∧ (∃ c ∈ cs, upperClass.test false c = true) ∧
        (∃ c ∈ cs, (Atom.cls [digit]).test false c = true) ∧
        (∃ c ∈ cs, specialClass.test false c = true) := by
  simp only [Regex.cat]
  constructor
  · intro h
    rw [matchK] at h
    have h1 := lookFor_exists _ _ _ _ _ h
    have h := ((lookFor_iff _ _ _ _ _).1 h).2
    rw [matchK] at h
    have h2 := lookFor_exists _ _ _ _ _ h
    have h := ((lookFor_iff _ _ _ _ _).1 h).2
    rw [matchK] at h
    have h3 := lookFor_exists _ _ _ _ _ h
    have h := ((lookFor_iff _ _ _ _ _).1 h).2
    rw [matchK] at h
    have h4 := lookFor_exists _ _ _ _ _ h
    have h := ((lookFor_iff _ _ _ _ _).1 h).2
    rw [matchK, matchK] at h
    obtain ⟨a, b, c⟩ := (passwordBody_iff cs).1 h
    exact ⟨a, b, c, h1, h2, h3, h4⟩
  · rintro ⟨a, b, c, h1, h2, h3, h4⟩
    have hdot : ∀ x ∈ cs, Atom.dot.test false x = true :=
      fun x hx => passwordClass_not_lineTerminator x (c x hx)
    rw [matchK]
    refine lookFor_of_exists _ _ _ _ _ hdot h1 ?_
    rw [matchK]
    refine lookFor_of_exists _ _ _ _ _ hdot h2 ?_
    rw [matchK]
    refine lookFor_of_exists _ _ _ _ _ hdot h3 ?_
    rw [matchK]
    refine lookFor_of_exists _ _ _ _ _ hdot h4 ?_
    rw [matchK, matchK]
    exact (passwordBody_iff cs).2 ⟨a, b, c⟩

theorem passwordRegex_test_iff (s : String) :
    passwordRegex.test s = true ↔
      8 ≤ s.length ∧ s.length ≤ 15 ∧
        (∀ c ∈ s.data,
          c.isLower = true ∨ c.isUpper = true ∨ c.isDigit = true ∨ c ∈ "@#$%^&*!".data) ∧
        (∃ c ∈ s.data, c.isLower = true) ∧ (∃ c ∈ s.data, c.isUpper = true) ∧
        (∃ c ∈ s.data, c.isDigit = true) ∧ (∃ c ∈ s.data, c ∈ "@#$%^&*!".data) := by
  rw [test_bol passwordRegex _ rfl s]
  show matchK false _ 0 s.data _ = true ↔ _
  rw [passwordRegex_matchK]
  simp only [passwordClass_test, lowerClass_test, upperClass_test, digitClass_test,
    specialClass_test, String.length]

/-! ## The email check -/

theorem repK_append_iff (p : Char → Bool) (lo : Nat) (hi : Option Nat) (cs : List Char)
    (i : Nat) (k : Nat → List Char → Bool) :
    repK p lo hi 0 i cs k = true ↔
      ∃ pre post, cs = pre ++ post ∧ lo ≤ pre.length ∧ (∀ h, hi = some h → pre.length ≤ h) ∧
        (∀ c ∈ pre, p c = true) ∧ k (i + pre.length) post = true := by
  rw [repK_zero_iff]
  constructor
  · rintro ⟨m, hm, hlo, hhi, hall, hk⟩
    have hl : (cs.take m).length = m := by simp [hm]
    exact ⟨cs.take m, cs.drop m, (List.take_append_drop m cs).symm, by omega,
      fun h hh => by rw [hl]; exact hhi h hh, hall, by rw [hl]; exact hk⟩
  · rintro ⟨pre, post, rfl, hlo, hhi, hall, hk⟩
    refine ⟨pre.length, by simp, hlo, hhi, ?_, ?_⟩
    · simpa using hall
    · simpa using hk

theorem matchK_atom_iff (ic : Bool) (a : Atom) (i : Nat) (cs : List Char)
    (k : Nat → List Char → Bool) :
    matchK ic (.atom a) i cs k = true ↔
      ∃ c rest, cs = c :: rest ∧ a.test ic c = true ∧ k (i + 1) rest = true := by
  cases cs with
  | nil => simp [matchK]
  | cons c rest =>
    simp only [matchK, Bool.and_eq_true, List.cons.injEq]
    constructor
    · rintro ⟨h1, h2⟩
      exact ⟨c, rest, ⟨rfl, rfl⟩, h1, h2⟩
    · rintro ⟨_, _, ⟨rfl, rfl⟩, h1, h2⟩
      exact ⟨h1, h2⟩

theorem matchK_rep_iff (ic : Bool) (a : Atom) (lo : Nat) (hi : Option Nat) (i : Nat)
    (cs : List Char) (k : Nat → List Char → Bool) :
    matchK ic (.rep a lo hi) i cs k = true ↔
      ∃ pre post, cs = pre ++ post ∧ lo ≤ pre.length ∧ (∀ h, hi = some h → pre.length ≤ h) ∧
        (∀ c ∈ pre, a.test ic c = true) ∧ k (i + pre.length) post = true := by
  rw [matchK, repK_append_iff]

theorem matchK_opt_iff (ic : Bool) (r : Regex) (i : Nat) (cs : List Char)
    (k : Nat → List Char → Bool) :
    matchK ic (.opt r) i cs k = true ↔ matchK ic r i cs k = true ∨ k i cs = true := by
  rw [matchK, Bool.or_eq_true]

theorem matchK_eol_iff (ic : Bool) (i : Nat) (cs : List Char) (k : Nat → List Char → Bool) :
    matchK ic .eol i cs k = true ↔ cs = [] ∧ k i cs = true := by
  rw [matchK, Bool.and_eq_true, List.isEmpty_iff]

theorem matchK_seq (ic : Bool) (r₁ r₂ : Regex) (i : Nat) (cs : List Char)
    (k : Nat → List Char → Bool) :
    matchK ic (.seq r₁ r₂) i cs k = matchK ic r₁ i cs fun j rest => matchK ic r₂ j rest k := by
  rw [matchK]

theorem char_le_iff (c d : Char) : c ≤ d ↔ c.toNat ≤ d.toNat := by
  rw [Char.le_def, UInt32.le_def]
  rfl

theorem isAlpha_iff (c : Char) :
    c.isAlpha = true ↔ (65 ≤ c.toNat ∧ c.toNat ≤ 90) ∨ (97 ≤ c.toNat ∧ c.toNat ≤ 122) := by
  simp only [Char.isAlpha, Bool.or_eq_true, isUpper_iff, isLower_iff]

theorem isAlphanum_iff (c : Char) :
    c.isAlphanum = true ↔
      (65 ≤ c.toNat ∧ c.toNat ≤ 90) ∨ (97 ≤ c.toNat ∧ c.toNat ≤ 122) ∨
        (48 ≤ c.toNat ∧ c.toNat ≤ 57) := by
  simp only [Char.isAlphanum, Bool.or_eq_true, isAlpha_iff, isDigit_iff, or_assoc]

theorem localClass_test (c : Char) :
    localClass.test true c = true ↔ c.isAlpha = true ∨ ('.' ≤ c ∧ c ≤ '_') := by
  rw [isAlpha_iff, char_le_iff, char_le_iff]
  show _ ↔ _ ∨ (46 ≤ c.toNat ∧ c.toNat ≤ 95)
  simp only [localClass, digit, Atom.test, ClassItem.test, caseVariants]
  split_ifs <;> simp [ClassItem.has] <;> omega

theorem domainClass_test (c : Char) :
    domainClass.test true c = true ↔ c.isAlphanum = true ∨ c = '-' := by
  rw [isAlphanum_iff, ← toNat_eq_iff c '-']
  show _ ↔ _ ∨ c.toNat = 45
  simp only [domainClass, digit, Atom.test, ClassItem.test, caseVariants]
  split_ifs <;> simp [ClassItem.has] <;> omega

theorem letterClass_test (c : Char) : lowerClass.test true c = true ↔ c.isAlpha = true := by
  rw [isAlpha_iff]
  simp only [lowerClass, Atom.test, ClassItem.test, caseVariants]
  split_ifs <;> simp [ClassItem.has] <;> omega

theorem atClass_test (c : Char) :
    (Atom.cls [.single '@']).test true c = true ↔ c = '@' := by
  rw [← toNat_eq_iff c '@']
  show _ ↔ c.toNat = 64
  simp only [Atom.test, ClassItem.test, caseVariants]
  split_ifs <;> simp [ClassItem.has] <;> omega

theorem dotClass_test (c : Char) :
    (Atom.cls [.single '.']).test true c = true ↔ c = '.' := by
  rw [← toNat_eq_iff c '.']
  show _ ↔ c.toNat = 46
  simp only [Atom.test, ClassItem.test, caseVariants]
  split_ifs <;> simp [ClassItem.has] <;> omega

/-- What the email check accepts: `local@domain.tld` or `local@domain.tld.tld2`, the local
part being one or more letters or characters from `.` to `_` in code-point order (the digits
and `/ : ; < = > ? @ [ \ ] ^` among them, the dash not), the domain one or more letters,
digits or dashes, and each top-level segment 2 to 8 letters. -/
theorem emailRegex_test_iff (s : String) :
    emailRegex.test s = true ↔
      ∃ loc dom tld ext : List Char,
        s.data = loc ++ ('@' :: dom) ++ ('.' :: tld) ++ ext ∧
        loc ≠ [] ∧ (∀ c ∈ loc, c.isAlpha = true ∨ ('.' ≤ c ∧ c ≤ '_')) ∧
        dom ≠ [] ∧ (∀ c ∈ dom, c.isAlphanum = true ∨ c = '-') ∧
        2 ≤ tld.length ∧ tld.length ≤ 8 ∧ (∀ c ∈ tld, c.isAlpha = true) ∧
        (ext = [] ∨ ∃ t, ext = '.' :: t ∧ 2 ≤ t.length ∧ t.length ≤ 8 ∧
          ∀ c ∈ t, c.isAlpha = true) := by
  rw [test_bol emailRegex _ rfl]
  show matchK true _ 0 s.data _ = true ↔ _
  simp only [Regex.cat, matchK_seq, matchK_rep_iff, matchK_atom_iff, matchK_opt_iff,
    matchK_eol_iff, localClass_test, domainClass_test, letterClass_test, atClass_test,
    dotClass_test, and_true]
  constructor
  · rintro ⟨loc, _, hs, hloc, -, hlocc, _, _, rfl, rfl, dom, _, rfl, hdom, -, hdomc,
      _, _, rfl, rfl, tld, ext, rfl, htld, htld8, htldc, hext⟩
    refine ⟨loc, dom, tld, ext, by simpa using hs, ?_, hlocc, ?_, hdomc, htld, htld8 8 rfl,
      htldc, ?_⟩
    · rintro rfl; simp at hloc
    · rintro rfl; simp at hdom
    · rcases hext with ⟨_, _, rfl, rfl, t, _, rfl, ht, ht8, htc, rfl⟩ | rfl
      · exact Or.inr ⟨t, by simp, ht, ht8 8 rfl, htc⟩
      · exact Or.inl rfl
  · rintro ⟨loc, dom, tld, ext, hs, hloc, hlocc, hdom, hdomc, htld, htld8, htldc, hext⟩
    refine ⟨loc, '@' :: (dom ++ ('.' :: (tld ++ ext))), by simpa using hs, ?_, by simp, hlocc,
      '@', _, rfl, rfl, dom, '.' :: (tld ++ ext), rfl, ?_, by simp, hdomc,
      '.', _, rfl, rfl, tld, ext, rfl, htld, ?_, htldc, ?_⟩
    · cases loc with
      | nil => exact absurd rfl hloc
      | cons _ _ => simp
    · cases dom with
      | nil => exact absurd rfl hdom
      | cons _ _ => simp
    · intro h hh; cases hh; exact htld8
    · rcases hext with rfl | ⟨t, rfl, ht, ht8, htc⟩
      · exact Or.inr rfl
      · refine Or.inl ⟨'.', t, rfl, rfl, t, [], by simp, ht, ?_, htc, rfl⟩
        intro h hh; cases hh; exact ht8

/-! ## Lemmas on `registerUser` and `loginUser` -/

theorem truthy_iff (s : String) : truthy s = true ↔ s ≠ "" := by
  simp [truthy]

theorem anyEmpty_iff (a b c : String) :
    (!truthy a || !truthy b || !truthy c) = true ↔ a = "" ∨ b = "" ∨ c = "" := by
  simp [truthy, or_assoc]

theorem anyEmpty_false_iff (a b c : String) :
    (!truthy a || !truthy b || !truthy c) = false ↔ ¬(a = "" ∨ b = "" ∨ c = "") := by
  rw [← anyEmpty_iff, Bool.not_eq_true]

theorem emailRegex_test_ne_empty (s : String) (h : emailRegex.test s = true) : s ≠ "" := by
  rintro rfl
  revert h
  decide

theorem passwordRegex_test_ne_empty (s : String) (h : passwordRegex.test s = true) : s ≠ "" := by
  rintro rfl
  revert h
  decide

/-- The executor of `registerUser` schedules the save exactly when all five checks pass. -/
theorem registerUserExecutor_scheduled_iff (st : Store) (email password confirm : String)
    (t : Timer) :
    registerUserExecutor st email password confirm = .scheduled t ↔
      emailRegex.test email = true ∧ passwordRegex.test password = true ∧
        confirm = password ∧ truthyItem (st.getItem email) = false ∧
        t = .registerSave email password := by
  unfold registerUserExecutor
  constructor
  · intro h
    split_ifs at h with h1 h2 h3 h4 h5
    simp only [Started.scheduled.injEq] at h
    simp only [Bool.not_eq_true', Bool.not_eq_true, Bool.not_eq_false] at h2 h3 h5
    simp only [ne_eq, Decidable.not_not] at h4
    exact ⟨h2, h3, h4.symm, h5, h.symm⟩
  · rintro ⟨h2, h3, rfl, h5, rfl⟩
    have he := emailRegex_test_ne_empty _ h2
    have hp := passwordRegex_test_ne_empty _ h3
    simp [truthy, he, hp, h2, h3, h5]

/-- A settled executor of `registerUser` has rejected. -/
theorem registerUserExecutor_settled (st : Store) (email password confirm : String)
    (o : Outcome) (h : registerUserExecutor st email password confirm = .settled o) :
    ∃ msg, o = .rejected (.str msg) := by
  unfold registerUserExecutor at h
  split_ifs at h <;> simp only [Started.settled.injEq] at h <;> exact ⟨_, h.symm⟩

/-- The callback of `registerUser` on an engine that accepts the write. -/
theorem fire_registerSave_accepted (q : Quota) (st : Store) (email password : String)
    (hq : q st email password = true) :
    (Timer.registerSave email password).fire q st =
      (some (.resolved (.str msgRegistered)),
        fun k => if k = email then some password else st k) := by
  simp [Timer.fire, Store.setItem, hq]

/-- The callback of `registerUser` on an engine that refuses the write: the promise is left
pending and the store is as it was. -/
theorem fire_registerSave_refused (q : Quota) (st : Store) (email password : String)
    (hq : q st email password = false) :
    (Timer.registerSave email password).fire q st = (none, st) := by
  simp [Timer.fire, Store.setItem, hq]

/-- The callback of `registerUser` never rejects. -/
theorem fire_registerSave_not_rejected (q : Quota) (st : Store) (email password : String)
    (v : JsVal) : ((Timer.registerSave email password).fire q st).1 ≠ some (.rejected v) := by
  cases hq : q st email password with
  | true => rw [fire_registerSave_accepted q st email password hq]; simp
  | false => rw [fire_registerSave_refused q st email password hq]; simp

/-- Firing the callback of `loginUser` leaves the store as it is. -/
theorem fire_loginCheck_store (q : Quota) (email password : String) (st : Store) :
    ((Timer.loginCheck email password).fire q st).2 = st := by
  simp only [Timer.fire]
  split
  · rfl
  · split_ifs <;> rfl

/-- Registration resolves only when the executor schedules the save and the engine accepts
the write. -/
theorem registerUser_resolved (q : Quota) (st : Store) (email password confirm : String)
    (v : JsVal) (h : (registerUser q st email password confirm).1 = some (.resolved v)) :
    registerUserExecutor st email password confirm
        = .scheduled (.registerSave email password) ∧
      q st email password = true := by
  unfold registerUser at h
  cases hs : registerUserExecutor st email password confirm with
  | settled o =>
    rw [hs] at h
    obtain ⟨msg, rfl⟩ := registerUserExecutor_settled _ _ _ _ _ hs
    simp [Started.complete] at h
  | scheduled t =>
    have ht := ((registerUserExecutor_scheduled_iff _ _ _ _ _).1 hs).2.2.2.2
    subst ht
    refine ⟨rfl, ?_⟩
    cases hq : q st email password with
    | true => rfl
    | false =>
      rw [hs] at h
      simp [Started.complete, fire_registerSave_refused q st email password hq] at h

theorem registerUser_of_scheduled (q : Quota) (st : Store) (email password confirm : String)
    (h : registerUserExecutor st email password confirm
      = .scheduled (.registerSave email password))
    (hq : q st email password = true) :
    registerUser q st email password confirm =
      (some (.resolved (.str msgRegistered)),
        fun k => if k = email then some password else st k) := by
  rw [registerUser, h, Started.complete, fire_registerSave_accepted q st email password hq]

theorem loginUserExecutor_of_valid (email password : String)
    (h : ¬(email = "" ∨ password = "")) (he : emailRegex.test email = true) :
    loginUserExecutor email password = .scheduled (.loginCheck email password) := by
  have h1 : truthy email = true := (truthy_iff _).2 fun e => h (Or.inl e)
  have h2 : truthy password = true := (truthy_iff _).2 fun e => h (Or.inr e)
  simp [loginUserExecutor, h1, h2, he]

/-- A call run to completion on a store without empty values keeps every record. -/
theorem complete_keeps_records (q : Quota) (st : Store) (c : Call)
    (hst : ∀ k v, st.getItem k = some v → v ≠ "") (k v : String)
    (hkv : st.getItem k = some v) :
    ((c.start st).complete q st).2.getItem k = some v := by
  cases hs : c.start st with
  | settled o => exact hkv
  | scheduled t =>
    cases c with
    | register e p cp =>
      obtain ⟨-, -, -, hfalsy, rfl⟩ := (registerUserExecutor_scheduled_iff _ _ _ _ _).1 hs
      simp only [Started.complete]
      cases hq : q st e p with
      | false => rw [fire_registerSave_refused q st e p hq]; exact hkv
      | true =>
        rw [fire_registerSave_accepted q st e p hq]
        simp only [Store.getItem]
        split_ifs with hk
        · subst hk
          rw [hkv] at hfalsy
          have := (truthy_iff v).2 (hst k v hkv)
          simp [truthyItem, this] at hfalsy
        · exact hkv
    | login e p =>
      simp only [Call.start, loginUserExecutor] at hs
      split_ifs at hs
      cases hs
      simp only [Started.complete, fire_loginCheck_store]
      exact hkv

/-! ## The claims on the validators -/

/-- C1: the email check rejects `a-b@c.com`, whose local part holds a dash, and accepts
`a/b@c.com`, whose local part holds a slash: in the class `[a-z\d\.-_]` the dash makes the
range from `.` to `_`. It accepts `user@example.com` and rejects the empty string. -/
theorem emailRegex_dash_range :
    emailRegex.test "a-b@c.com" = false ∧ emailRegex.test "a/b@c.com" = true ∧
      emailRegex.test "user@example.com" = true ∧ emailRegex.test "" = false := by
  decide

/-- C2: the password check is true exactly for the strings of 8 to 15 characters, each an
ASCII letter, an ASCII digit or one of `@#$%^&*!`, that contain a lowercase letter, an
uppercase letter, a digit and one of `@#$%^&*!`; it is false for every string shorter than 8
or longer than 15 characters, true for `Abcdef1!` and false for `abcdefg1!`. -/
theorem passwordRegex_test_spec :
    (∀ s : String, passwordRegex.test s = true ↔
      8 ≤ s.length ∧ s.length ≤ 15 ∧
        (∀ c ∈ s.data,
          c.isLower = true ∨ c.isUpper = true ∨ c.isDigit = true ∨ c ∈ "@#$%^&*!".data) ∧
        (∃ c ∈ s.data, c.isLower = true) ∧ (∃ c ∈ s.data, c.isUpper = true) ∧
        (∃ c ∈ s.data, c.isDigit = true) ∧ (∃ c ∈ s.data, c ∈ "@#$%^&*!".data)) ∧
    (∀ s : String, s.length < 8 ∨ 15 < s.length → passwordRegex.test s = false) ∧
    passwordRegex.test "Abcdef1!" = true ∧ passwordRegex.test "abcdefg1!" = false := by
  refine ⟨passwordRegex_test_iff, ?_, by decide, by decide⟩
  intro s hs
  cases h : passwordRegex.test s with
  | false => rfl
  | true =>
    have := (passwordRegex_test_iff s).1 h
    omega

/-- Witness of C2 at the 4-character string `Ab1!`. -/
theorem passwordRegex_test_spec_witness :
    ("Ab1!".length < 8 ∨ 15 < "Ab1!".length) ∧ passwordRegex.test "Ab1!" = false :=
  ⟨by decide, passwordRegex_test_spec.2.1 "Ab1!" (by decide)⟩

/-! ## The claims on `registerUser` and `loginUser` run on their own -/

/-- C3: `registerUser` fails with the error of the first failing check, in the order
(1) an empty input, (2) the email check, (3) the password check, (4) the confirmation,
whatever the store contains; the "already registered" failure needs checks 1-4 to pass. -/
theorem registerUser_validation_order (q : Quota) (st : Store)
    (email password confirmPassword : String) :
    (email = "" ∨ password = "" ∨ confirmPassword = "" →
      (registerUser q st email password confirmPassword).1
        = some (.rejected (.str "All fields are required."))) ∧
    (¬(email = "" ∨ password = "" ∨ confirmPassword = "") → emailRegex.test email = false →
      (registerUser q st email password confirmPassword).1
        = some (.rejected (.str "Invalid email format."))) ∧
    (¬(email = "" ∨ password = "" ∨ confirmPassword = "") → emailRegex.test email = true →
      passwordRegex.test password = false →
      (registerUser q st email password confirmPassword).1
        = some (.rejected (.str msgWeakPassword))) ∧
    (¬(email = "" ∨ password = "" ∨ confirmPassword = "") → emailRegex.test email = true →
      passwordRegex.test password = true → password ≠ confirmPassword →
      (registerUser q st email password confirmPassword).1
        = some (.rejected (.str "Passwords do not match."))) ∧
    ((registerUser q st email password confirmPassword).1
        = some (.rejected (.str "Email already registered. Please login.")) →
      ¬(email = "" ∨ password = "" ∨ confirmPassword = "") ∧ emailRegex.test email = true ∧
        passwordRegex.test password = true ∧ password = confirmPassword) := by
  refine ⟨?_, ?_, ?_, ?_, ?_⟩
  · intro h
    have := (anyEmpty_iff email password confirmPassword).2 h
    simp [registerUser, registerUserExecutor, this, Started.complete, msgAllFields]
  · intro h he
    have := (anyEmpty_false_iff email password confirmPassword).2 h
    simp [registerUser, registerUserExecutor, this, he, Started.complete, msgInvalidEmail]
  · intro h he hp
    have := (anyEmpty_false_iff email password confirmPassword).2 h
    simp [registerUser, registerUserExecutor, this, he, hp, Started.complete]
  · intro h he hp hc
    have := (anyEmpty_false_iff email password confirmPassword).2 h
    simp [registerUser, registerUserExecutor, this, he, hp, hc, Started.complete, msgMismatch]
  · intro h
    unfold registerUser registerUserExecutor at h
    split_ifs at h with h1 h2 h3 h4 h5
    · simp [Started.complete, msgAllFields] at h
    · simp [Started.complete, msgInvalidEmail] at h
    · simp [Started.complete, msgWeakPassword] at h
    · simp [Started.complete, msgMismatch] at h
    · simp only [Bool.not_eq_true', Bool.not_eq_true, Bool.not_eq_false] at h2 h3
      simp only [ne_eq, Decidable.not_not] at h4
      exact ⟨(anyEmpty_false_iff _ _ _).1 (by simpa using h1), h2, h3, h4⟩
    · exact absurd h (fire_registerSave_not_rejected q st email password _)

/-- Witness of C3: `registerUser("a@b.com", "Abcdef1!", "Mismatch1!")` on the empty store
fails with "Passwords do not match.". -/
theorem registerUser_validation_order_witness :
    ¬("a@b.com" = "" ∨ "Abcdef1!" = "" ∨ "Mismatch1!" = "") ∧
      emailRegex.test "a@b.com" = true ∧ passwordRegex.test "Abcdef1!" = true ∧
      "Abcdef1!" ≠ "Mismatch1!" ∧
      (registerUser Quota.unbounded Store.empty "a@b.com" "Abcdef1!" "Mismatch1!").1
        = some (.rejected (.str "Passwords do not match.")) :=
  ⟨by decide, by decide, by decide, by decide,
    (registerUser_validation_order Quota.unbounded Store.empty "a@b.com" "Abcdef1!"
      "Mismatch1!").2.2.2.1 (by decide) (by decide) (by decide) (by decide)⟩

/-- C4: on a store whose records all have a non-empty password, `loginUser` returns the
"Email and password are required." failure for an empty input, otherwise the "Invalid email
format." failure for an email failing the email check, otherwise `USER_NOT_FOUND` when the
store has no record for the email, otherwise `INVALID_PASSWORD` when the stored password
differs from the given one, otherwise a success whose payload carries the given email. -/
theorem loginUser_outcome (q : Quota) (st : Store) (email password : String)
    (hst : ∀ k v, st.getItem k = some v → v ≠ "") :
    (email = "" ∨ password = "" →
      (loginUser q st email password).1
        = some (.rejected (.str "Email and password are required."))) ∧
    (¬(email = "" ∨ password = "") → emailRegex.test email = false →
      (loginUser q st email password).1 = some (.rejected (.str "Invalid email format."))) ∧
    (¬(email = "" ∨ password = "") → emailRegex.test email = true → st.getItem email = none →
      (loginUser q st email password).1
        = some (.rejected (.obj [("code", "USER_NOT_FOUND"), ("message", msgNotRegistered)])) ∧
      ∃ o, (loginUser q st email password).1 = some o ∧ o.code = some "USER_NOT_FOUND") ∧
    (¬(email = "" ∨ password = "") → emailRegex.test email = true →
      ∀ v, st.getItem email = some v → v ≠ password →
      (loginUser q st email password).1
        = some (.rejected (.obj [("code", "INVALID_PASSWORD"), ("message", msgIncorrect)])) ∧
      ∃ o, (loginUser q st email password).1 = some o ∧ o.code = some "INVALID_PASSWORD") ∧
    (¬(email = "" ∨ password = "") → emailRegex.test email = true →
      st.getItem email = some password →
      (loginUser q st email password).1
        = some (.resolved (.obj [("email", email),
            ("message", "Login successful for " ++ email ++ ".")])) ∧
      ∀ v, (loginUser q st email password).1 = some (.resolved v) →
        v.field "email" = some email) := by
  have hempty : ∀ a b : String, (!truthy a || !truthy b) = true ↔ (a = "" ∨ b = "") := by
    intro a b; simp [truthy]
  refine ⟨?_, ?_, ?_, ?_, ?_⟩
  · intro h
    have := (hempty _ _).2 h
    simp [loginUser, loginUserExecutor, this, Started.complete, msgLoginRequired]
  · intro h he
    have : (!truthy email || !truthy password) = false := by
      rw [← Bool.not_eq_true, hempty]; exact h
    simp [loginUser, loginUserExecutor, this, he, Started.complete, msgInvalidEmail]
  · intro h he hnone
    have hs := loginUserExecutor_of_valid email password h he
    have e : (loginUser q st email password).1
        = some (.rejected (.obj [("code", "USER_NOT_FOUND"), ("message", msgNotRegistered)])) := by
      simp [loginUser, hs, Started.complete, Timer.fire, hnone]
    exact ⟨e, _, e, rfl⟩
  · intro h he v hv hne
    have hs := loginUserExecutor_of_valid email password h he
    have hv' : truthy v = true := (truthy_iff v).2 (hst email v hv)
    have e : (loginUser q st email password).1
        = some (.rejected (.obj [("code", "INVALID_PASSWORD"), ("message", msgIncorrect)])) := by
      simp [loginUser, hs, Started.complete, Timer.fire, hv, hv', hne]
    exact ⟨e, _, e, rfl⟩
  · intro h he hv
    have hs := loginUserExecutor_of_valid email password h he
    have hv' : truthy password = true := (truthy_iff _).2 (hst email password hv)
    have e : (loginUser q st email password).1
        = some (.resolved (.obj [("email", email),
            ("message", "Login successful for " ++ email ++ ".")])) := by
      simp [loginUser, hs, Started.complete, Timer.fire, hv, hv']
    refine ⟨e, ?_⟩
    intro v hv2
    rw [e] at hv2
    cases hv2
    simp [JsVal.field, List.lookup]

/-- Witness of C4: `loginUser("never@seen.com", "x")` on the empty store fails with the
code `USER_NOT_FOUND`. -/
theorem loginUser_outcome_witness :
    (∀ k v, Store.empty.getItem k = some v → v ≠ "") ∧
      ¬("never@seen.com" = "" ∨ "x" = "") ∧ emailRegex.test "never@seen.com" = true ∧
      Store.empty.getItem "never@seen.com" = none ∧
      (loginUser Quota.unbounded Store.empty "never@seen.com" "x").1
        = some (.rejected (.obj [("code", "USER_NOT_FOUND"), ("message", msgNotRegistered)])) ∧
      ∃ o, (loginUser Quota.unbounded Store.empty "never@seen.com" "x").1 = some o ∧
        o.code = some "USER_NOT_FOUND" :=
  ⟨fun _ _ h => (nomatch h), by decide, by decide, rfl,
    (loginUser_outcome Quota.unbounded Store.empty "never@seen.com" "x"
      (fun _ _ h => (nomatch h))).2.2.1 (by decide) (by decide) rfl⟩

/-- C5, as amended: when the email passes the email check, the password passes the password
check, the store has no record for the email and the storage engine accepts the write,
`registerUser(email, password, password)` run on its own succeeds, and the resulting store
maps the email to the password itself and every other key to what it was mapped to before. -/
theorem registerUser_success (q : Quota) (st : Store) (email password : String)
    (hemail : emailRegex.test email = true) (hpassword : passwordRegex.test password = true)
    (hnew : st.getItem email = none) (hroom : q st email password = true) :
    (registerUser q st email password password).1
        = some (.resolved (.str "Registration successful! Redirecting to login...")) ∧
      (registerUser q st email password password).2.getItem email = some password ∧
      (∀ k, k ≠ email →
        (registerUser q st email password password).2.getItem k = st.getItem k) ∧
      ∀ k, (registerUser q st email password password).2.getItem k
        = if k = email then some password else st.getItem k := by
  have hs := (registerUserExecutor_scheduled_iff st email password password _).2
    ⟨hemail, hpassword, rfl, by rw [hnew]; rfl, rfl⟩
  rw [registerUser_of_scheduled q _ _ _ _ hs hroom]
  refine ⟨rfl, by simp [Store.getItem], ?_, fun k => rfl⟩
  intro k hk
  simp [Store.getItem, hk]

/-- Witness of C5: registering `a@b.com` with `Abcdef1!` on the empty store of an engine with
room. -/
theorem registerUser_success_witness :
    emailRegex.test "a@b.com" = true ∧ passwordRegex.test "Abcdef1!" = true ∧
      Store.empty.getItem "a@b.com" = none ∧
      Quota.unbounded Store.empty "a@b.com" "Abcdef1!" = true ∧
      (registerUser Quota.unbounded Store.empty "a@b.com" "Abcdef1!" "Abcdef1!").2.getItem
        "a@b.com" = some "Abcdef1!" :=
  ⟨by decide, by decide, rfl, rfl,
    (registerUser_success Quota.unbounded Store.empty "a@b.com" "Abcdef1!" (by decide)
      (by decide) rfl rfl).2.1⟩

/-- C5 as stated fails: on an engine that refuses the write, `registerUser("a@b.com",
"Abcdef1!", "Abcdef1!")` on the empty store meets every condition of the claim, and the
promise is never settled and no record is stored. -/
theorem registerUser_refused_write :
    emailRegex.test "a@b.com" = true ∧ passwordRegex.test "Abcdef1!" = true ∧
      Store.empty.getItem "a@b.com" = none ∧
      (registerUser Quota.exhausted Store.empty "a@b.com" "Abcdef1!" "Abcdef1!").1 = none ∧
      (registerUser Quota.exhausted Store.empty "a@b.com" "Abcdef1!" "Abcdef1!").2.getItem
        "a@b.com" = none := by
  decide

/-- C6: after a successful `registerUser(email, password, password)`, `loginUser(email,
password)` on the resulting store succeeds with a payload carrying the email, and
`loginUser(email, q)` fails with the code `INVALID_PASSWORD` for every non-empty `q` other
than the password. -/
theorem register_then_login (quota : Quota) (st : Store) (email password : String) (v : JsVal)
    (hreg : (registerUser quota st email password password).1 = some (.resolved v)) :
    (loginUser quota (registerUser quota st email password password).2 email password).1
        = some (.resolved (.obj [("email", email),
            ("message", "Login successful for " ++ email ++ ".")])) ∧
      ∀ q, q ≠ "" → q ≠ password →
        ∃ o, (loginUser quota (registerUser quota st email password password).2 email q).1
            = some o ∧ o.code = some "INVALID_PASSWORD" := by
  obtain ⟨hs, hroom⟩ := registerUser_resolved _ _ _ _ _ _ hreg
  obtain ⟨he, hp, -, -, -⟩ := (registerUserExecutor_scheduled_iff _ _ _ _ _).1 hs
  rw [registerUser_of_scheduled quota _ _ _ _ hs hroom]
  have hne := emailRegex_test_ne_empty _ he
  have hpne := passwordRegex_test_ne_empty _ hp
  have hget : Store.getItem (fun k => if k = email then some password else st k) email
      = some password := by
    simp [Store.getItem]
  have htr : truthy password = true := (truthy_iff _).2 hpne
  constructor
  · have hl := loginUserExecutor_of_valid email password (by simp [hne, hpne]) he
    simp only [loginUser, hl, Started.complete, Timer.fire, hget]
    simp [htr]
  · intro q hq hqp
    have hl := loginUserExecutor_of_valid email q (by simp [hne, hq]) he
    refine ⟨.rejected (.obj [("code", "INVALID_PASSWORD"), ("message", msgIncorrect)]), ?_, rfl⟩
    simp only [loginUser, hl, Started.complete, Timer.fire, hget]
    simp [htr, Ne.symm hqp]

/-- Witness of C6: email `a@b.com`, password `Abcdef1!`, wrong password `wrong`. -/
theorem register_then_login_witness :
    (registerUser Quota.unbounded Store.empty "a@b.com" "Abcdef1!" "Abcdef1!").1
        = some (.resolved (.str msgRegistered)) ∧
      "wrong" ≠ "" ∧ "wrong" ≠ "Abcdef1!" ∧
      ∃ o, (loginUser Quota.unbounded
          (registerUser Quota.unbounded Store.empty "a@b.com" "Abcdef1!" "Abcdef1!").2
          "a@b.com" "wrong").1 = some o ∧ o.code = some "INVALID_PASSWORD" :=
  ⟨by decide, by decide, by decide,
    (register_then_login Quota.unbounded Store.empty "a@b.com" "Abcdef1!"
      (.str msgRegistered) (by decide)).2 "wrong" (by decide) (by decide)⟩

/-- C7: after a successful `registerUser(email, password, password)`, a later
`registerUser(email, p2, p2)` on the resulting store with `p2` passing the password check
fails with the "already registered" error, and the store still maps the email to the first
password. -/
theorem register_duplicate_rejected (q : Quota) (st : Store) (email password p2 : String)
    (v : JsVal)
    (hreg : (registerUser q st email password password).1 = some (.resolved v))
    (hp2 : passwordRegex.test p2 = true) :
    (registerUser q (registerUser q st email password password).2 email p2 p2).1
        = some (.rejected (.str "Email already registered. Please login.")) ∧
      (registerUser q (registerUser q st email password password).2 email p2 p2).2.getItem
        email = some password := by
  obtain ⟨hs, hroom⟩ := registerUser_resolved _ _ _ _ _ _ hreg
  obtain ⟨he, hp, -, -, -⟩ := (registerUserExecutor_scheduled_iff _ _ _ _ _).1 hs
  rw [registerUser_of_scheduled q _ _ _ _ hs hroom]
  have hne := emailRegex_test_ne_empty _ he
  have hpne := passwordRegex_test_ne_empty _ hp
  have hp2ne := passwordRegex_test_ne_empty _ hp2
  have hget : Store.getItem (fun k => if k = email then some password else st k) email
      = some password := by
    simp [Store.getItem]
  have e : registerUser q (fun k => if k = email then some password else st k) email p2 p2
      = (some (.rejected (.str msgAlreadyRegistered)),
          fun k => if k = email then some password else st k) := by
    simp only [registerUser, registerUserExecutor, hget]
    simp [truthy, hne, hp2ne, he, hp2, truthyItem, hpne, Started.complete]
  rw [e]
  exact ⟨rfl, hget⟩

/-- Witness of C7: registering `a@b.com` with `Abcdef1!` twice in sequence. -/
theorem register_duplicate_rejected_witness :
    (registerUser Quota.unbounded Store.empty "a@b.com" "Abcdef1!" "Abcdef1!").1
        = some (.resolved (.str msgRegistered)) ∧
      passwordRegex.test "Abcdef1!" = true ∧
      (registerUser Quota.unbounded
        (registerUser Quota.unbounded Store.empty "a@b.com" "Abcdef1!" "Abcdef1!").2
        "a@b.com" "Abcdef1!" "Abcdef1!").1
        = some (.rejected (.str "Email already registered. Please login.")) :=
  ⟨by decide, by decide,
    (register_duplicate_rejected Quota.unbounded Store.empty "a@b.com" "Abcdef1!" "Abcdef1!"
      (.str msgRegistered) (by decide) (by decide)).1⟩

/-- C8: a `registerUser` call that returns a failure leaves the store as it was, and a
`loginUser` call leaves the store as it was whatever its outcome; a `registerUser` call
whose promise is never settled leaves the store as it was too. -/
theorem store_frame (q : Quota) (st : Store) (email password confirmPassword : String) :
    (∀ v, (registerUser q st email password confirmPassword).1 = some (.rejected v) →
      (registerUser q st email password confirmPassword).2 = st) ∧
    (loginUser q st email password).2 = st ∧
    ((registerUser q st email password confirmPassword).1 = none →
      (registerUser q st email password confirmPassword).2 = st) := by
  refine ⟨?_, ?_, ?_⟩
  · intro v hv
    unfold registerUser at hv ⊢
    cases hs : registerUserExecutor st email password confirmPassword with
    | settled o => rfl
    | scheduled t =>
      rw [hs] at hv
      rw [((registerUserExecutor_scheduled_iff _ _ _ _ _).1 hs).2.2.2.2] at hv
      exact absurd hv (fire_registerSave_not_rejected q st email password v)
  · unfold loginUser loginUserExecutor
    split_ifs
    · rfl
    · rfl
    · exact fire_loginCheck_store q _ _ _
  · intro hv
    unfold registerUser at hv ⊢
    cases hs : registerUserExecutor st email password confirmPassword with
    | settled o => rfl
    | scheduled t =>
      rw [hs] at hv
      rw [((registerUserExecutor_scheduled_iff _ _ _ _ _).1 hs).2.2.2.2] at hv ⊢
      simp only [Started.complete] at hv ⊢
      cases hq : q st email password with
      | false => rw [fire_registerSave_refused q st email password hq]
      | true =>
        rw [fire_registerSave_accepted q st email password hq] at hv
        cases hv

/-- Witness of C8: `registerUser("a@b.com", "Abcdef1!", "Mismatch1!")` on the empty store
fails and creates no record. -/
theorem store_frame_witness :
    (registerUser Quota.unbounded Store.empty "a@b.com" "Abcdef1!" "Mismatch1!").1
        = some (.rejected (.str msgMismatch)) ∧
      (registerUser Quota.unbounded Store.empty "a@b.com" "Abcdef1!" "Mismatch1!").2
        = Store.empty :=
  ⟨by decide,
    (store_frame Quota.unbounded Store.empty "a@b.com" "Abcdef1!" "Mismatch1!").1
      (.str msgMismatch) (by decide)⟩

/-! ## Executions with overlapping calls -/

/-- The timers a call schedules carry an email and a password that passed the checks. -/
theorem start_scheduled_registerSave (st : Store) (c : Call) (email password : String)
    (h : c.start st = .scheduled (.registerSave email password)) :
    emailRegex.test email = true ∧ passwordRegex.test password = true := by
  cases c with
  | register e p cp =>
    obtain ⟨he, hp, -, -, ht⟩ := (registerUserExecutor_scheduled_iff _ _ _ _ _).1 h
    cases ht
    exact ⟨he, hp⟩
  | login e p =>
    simp only [Call.start, loginUserExecutor] at h
    split_ifs at h
    cases h

/-- The records of the store after the callback of `registerUser` are the written one and
those of the store before. -/
theorem fire_registerSave_records (q : Quota) (st : Store) (email password k v : String)
    (h : ((Timer.registerSave email password).fire q st).2.getItem k = some v) :
    (k = email ∧ v = password) ∨ st.getItem k = some v := by
  cases hq : q st email password with
  | false =>
    rw [fire_registerSave_refused q st email password hq] at h
    exact Or.inr h
  | true =>
    rw [fire_registerSave_accepted q st email password hq] at h
    simp only [Store.getItem] at h
    split_ifs at h with hk
    · cases h
      exact Or.inl ⟨hk, rfl⟩
    · exact Or.inr h

/-- In an execution the store changes only when the callback of `registerUser` fires: making
a call, and firing the callback of `loginUser`, leave it as it is. -/
theorem step_store_frame (q : Quota) (s : Sys) (e : Event) :
    (s.step q e).store = s.store ∨
      ∃ i email password, e = .fire i ∧
        s.timers.get? i = some (.registerSave email password) := by
  cases e with
  | call c =>
    left
    simp only [Sys.step]
    cases c.start s.store <;> rfl
  | fire i =>
    simp only [Sys.step]
    cases hg : s.timers.get? i with
    | none => exact Or.inl rfl
    | some t =>
      cases t with
      | registerSave email password => exact Or.inr ⟨i, email, password, rfl, hg⟩
      | loginCheck email password => exact Or.inl (fire_loginCheck_store q _ _ _)

/-- One task keeps the invariant: the records of the store and the pending saves pass the
two checks. -/
theorem step_invariant (q : Quota) (s : Sys) (e : Event)
    (hst : ∀ k v, s.store.getItem k = some v →
      emailRegex.test k = true ∧ passwordRegex.test v = true)
    (htm : ∀ email password, Timer.registerSave email password ∈ s.timers →
      emailRegex.test email = true ∧ passwordRegex.test password = true) :
    (∀ k v, (s.step q e).store.getItem k = some v →
      emailRegex.test k = true ∧ passwordRegex.test v = true) ∧
    (∀ email password, Timer.registerSave email password ∈ (s.step q e).timers →
      emailRegex.test email = true ∧ passwordRegex.test password = true) := by
  cases e with
  | call c =>
    simp only [Sys.step]
    cases hs : c.start s.store with
    | settled o => exact ⟨hst, htm⟩
    | scheduled t =>
      refine ⟨hst, ?_⟩
      intro email password hmem
      simp only [List.mem_append, List.mem_singleton] at hmem
      rcases hmem with hmem | rfl
      · exact htm _ _ hmem
      · exact start_scheduled_registerSave _ _ _ _ hs
  | fire i =>
    simp only [Sys.step]
    cases hg : s.timers.get? i with
    | none => exact ⟨hst, htm⟩
    | some t =>
      have hmem : t ∈ s.timers := List.get?_mem hg
      refine ⟨?_, ?_⟩
      · cases t with
        | registerSave email password =>
          intro k v hkv
          rcases fire_registerSave_records q _ _ _ _ _ hkv with ⟨rfl, rfl⟩ | hold
          · exact htm _ _ hmem
          · exact hst k v hold
        | loginCheck email password =>
          simp only [fire_loginCheck_store]
          exact hst
      · intro email password hm
        exact htm _ _ (List.mem_of_mem_eraseIdx hm)

/-- Every execution keeps the invariant. -/
theorem run_invariant (q : Quota) (es : List Event) :
    ∀ s : Sys,
      (∀ k v, s.store.getItem k = some v →
        emailRegex.test k = true ∧ passwordRegex.test v = true) →
      (∀ email password, Timer.registerSave email password ∈ s.timers →
        emailRegex.test email = true ∧ passwordRegex.test password = true) →
      ∀ k v, (s.run q es).store.getItem k = some v →
        emailRegex.test k = true ∧ passwordRegex.test v = true := by
  induction es with
  | nil => intro s hst _; exact hst
  | cons e es ih =>
    intro s hst htm
    obtain ⟨h1, h2⟩ := step_invariant q s e hst htm
    exact ih (s.step q e) h1 h2

/-- A call run to completion keeps the records of the store passing the two checks. -/
theorem complete_invariant (q : Quota) (st : Store) (c : Call)
    (hst : ∀ k v, st.getItem k = some v →
      emailRegex.test k = true ∧ passwordRegex.test v = true) :
    ∀ k v, ((c.start st).complete q st).2.getItem k = some v →
      emailRegex.test k = true ∧ passwordRegex.test v = true := by
  cases hs : c.start st with
  | settled o => exact hst
  | scheduled t =>
    cases t with
    | registerSave email password =>
      intro k v hkv
      simp only [Started.complete] at hkv
      rcases fire_registerSave_records q _ _ _ _ _ hkv with ⟨rfl, rfl⟩ | hold
      · exact start_scheduled_registerSave _ _ _ _ hs
      · exact hst k v hold
    | loginCheck email password =>
      simp only [Started.complete, fire_loginCheck_store]
      exact hst

theorem runCalls_invariant (q : Quota) (calls : List Call) :
    ∀ st : Store,
      (∀ k v, st.getItem k = some v →
        emailRegex.test k = true ∧ passwordRegex.test v = true) →
      ∀ k v, (runCalls q st calls).getItem k = some v →
        emailRegex.test k = true ∧ passwordRegex.test v = true := by
  induction calls with
  | nil => intro st hst; exact hst
  | cons c calls ih =>
    intro st hst
    exact ih _ (complete_invariant q st c hst)

/-- Calls run one after the other from the empty store never replace a record: what is
stored under a key after some calls is still stored under it after any further calls. -/
theorem runCalls_keeps_records (q : Quota) (later : List Call) :
    ∀ (st : Store),
      (∀ k v, st.getItem k = some v →
        emailRegex.test k = true ∧ passwordRegex.test v = true) →
      ∀ k v, st.getItem k = some v → (runCalls q st later).getItem k = some v := by
  induction later with
  | nil => intro st _ k v h; exact h
  | cons c later ih =>
    intro st hst k v h
    refine ih _ (complete_invariant q st c hst) k v ?_
    exact complete_keeps_records q st c
      (fun k v hkv => passwordRegex_test_ne_empty v (hst k v hkv).2) k v h

/-- C10: starting from the empty store, after any sequence of `registerUser` and
`loginUser` calls, run one after the other or overlapping, every record of the store has a
key that passes the email check and a value that passes the password check; the value is
therefore non-empty, and the truthiness test on the looked-up value is true for the key. -/
theorem store_invariant (q : Quota) (es : List Event) (calls : List Call) (st : Store)
    (k v : String)
    (hreach : st = ((Sys.init Store.empty).run q es).store ∨
      st = runCalls q Store.empty calls)
    (hrecord : st.getItem k = some v) :
    emailRegex.test k = true ∧ passwordRegex.test v = true ∧ v ≠ "" ∧
      truthyItem (st.getItem k) = true := by
  have hinit : ∀ k v, Store.empty.getItem k = some v →
      emailRegex.test k = true ∧ passwordRegex.test v = true := fun _ _ h => (nomatch h)
  have hkv : emailRegex.test k = true ∧ passwordRegex.test v = true := by
    rcases hreach with rfl | rfl
    · exact run_invariant q es (Sys.init Store.empty) hinit (fun _ _ h => (nomatch h)) k v
        hrecord
    · exact runCalls_invariant q calls Store.empty hinit k v hrecord
  have hne := passwordRegex_test_ne_empty v hkv.2
  refine ⟨hkv.1, hkv.2, hne, ?_⟩
  rw [hrecord]
  exact (truthy_iff v).2 hne

/-- Witness of C10: the store after registering `a@b.com` with `Abcdef1!`. -/
theorem store_invariant_witness :
    ((Sys.init Store.empty).run Quota.unbounded
        [.call (.register "a@b.com" "Abcdef1!" "Abcdef1!"), .fire 0]).store.getItem "a@b.com"
        = some "Abcdef1!" ∧
      emailRegex.test "a@b.com" = true ∧ passwordRegex.test "Abcdef1!" = true ∧
      "Abcdef1!" ≠ "" :=
  ⟨by decide,
    (store_invariant Quota.unbounded
      [.call (.register "a@b.com" "Abcdef1!" "Abcdef1!"), .fire 0] [] _
      "a@b.com" "Abcdef1!" (Or.inl rfl) (by decide)).1,
    (store_invariant Quota.unbounded
      [.call (.register "a@b.com" "Abcdef1!" "Abcdef1!"), .fire 0] [] _
      "a@b.com" "Abcdef1!" (Or.inl rfl) (by decide)).2.1,
    (store_invariant Quota.unbounded
      [.call (.register "a@b.com" "Abcdef1!" "Abcdef1!"), .fire 0] [] _
      "a@b.com" "Abcdef1!" (Or.inl rfl) (by decide)).2.2.1⟩

/-- C9: two overlapping `registerUser` calls for the new email `a@b.com` with the valid
passwords `Abcdef1!` and `Xyzabc2#` both pass the lookup, both resolve, and the second save
replaces the value the first one stored. -/
theorem overlapping_register_overwrites :
    ((Sys.init Store.empty).run Quota.unbounded
        [.call (.register "a@b.com" "Abcdef1!" "Abcdef1!"),
          .call (.register "a@b.com" "Xyzabc2#" "Xyzabc2#"),
          .fire 0]).store.getItem "a@b.com" = some "Abcdef1!" ∧
      ((Sys.init Store.empty).run Quota.unbounded
        [.call (.register "a@b.com" "Abcdef1!" "Abcdef1!"),
          .call (.register "a@b.com" "Xyzabc2#" "Xyzabc2#"),
          .fire 0, .fire 0]).store.getItem "a@b.com" = some "Xyzabc2#" ∧
      ((Sys.init Store.empty).run Quota.unbounded
        [.call (.register "a@b.com" "Abcdef1!" "Abcdef1!"),
          .call (.register "a@b.com" "Xyzabc2#" "Xyzabc2#"),
          .fire 0, .fire 0]).settled
        = [.resolved (.str msgRegistered), .resolved (.str msgRegistered)] := by
  decide

end Apple
